import Mathlib

/-!
Verification development for the CoPHE hierarchical-evaluation library.

The development shallowly embeds the two source modules:
  * `scripts/multi_level_eval.py`  — count-based confusion statistics and
    per-class / micro / macro metric reports over numpy count matrices;
  * `scripts/evaluation_setup.py` — per-layer transition-matrix construction
    over an ontology's parent chains, and the cross-layer evaluation setup.

Matrices are modelled as row-major lists of rows of rationals (numpy integer
and float arithmetic on these inputs is exact ratio arithmetic, which ℚ
captures).  Fallible Python operations (dictionary and list indexing that can
raise, numpy broadcasting that can fail) are modelled with `Option`/`Except`.
-/

namespace CoPHE

abbrev Code := String

abbrev Mat := List (List ℚ)

/-- Association-list lookup, modelling Python dictionary subscription `d[k]`
(`none` models a raised `KeyError`). -/
def alookup {κ β : Type} [DecidableEq κ] : List (κ × β) → κ → Option β
  | [], _ => none
  | (k, v) :: rest, c => if k = c then some v else alookup rest c

/-- Python error values raised by the embedded code. -/
inductive PyErr
  | lookupError
  | typeError
  deriving DecidableEq

instance exceptDecEq {ε α : Type} [DecidableEq ε] [DecidableEq α] :
    DecidableEq (Except ε α)
  | .ok a, .ok b =>
      if h : a = b then isTrue (by rw [h]) else isFalse (fun hh => h (by injection hh))
  | .ok _, .error _ => isFalse (fun hh => Except.noConfusion hh)
  | .error _, .ok _ => isFalse (fun hh => Except.noConfusion hh)
  | .error e, .error e' =>
      if h : e = e' then isTrue (by rw [h]) else isFalse (fun hh => h (by injection hh))

/-! ### numpy primitives used by `multi_level_eval.py` -/

/-- Number of columns of a row-major matrix (length of its first row). -/
def numCols (m : Mat) : Nat := (m.head?.getD []).length

/-- Column `j` of a matrix, as the list of entries `row[j]` down the rows. -/
def col (m : Mat) (j : Nat) : List ℚ := m.map (fun row => row.getD j 0)

/-- `np.minimum(x, y)`: elementwise minimum. -/
def np_minimum (x y : Mat) : Mat := List.zipWith (List.zipWith min) x y

/-- `x - y` on numpy arrays: elementwise subtraction. -/
def np_subtract (x y : Mat) : Mat := List.zipWith (List.zipWith (fun a b => a - b)) x y

/-- `np.maximum(x, 0)`: elementwise maximum against the scalar 0. -/
def np_maximum0 (x : Mat) : Mat := x.map (fun row => row.map (fun a => max a 0))

/-- `np.sum(m, axis=0)`: per-column sums. -/
def np_sum_axis0 (m : Mat) : List ℚ := (List.range (numCols m)).map (fun j => (col m j).sum)

/-- `np.sum(m, axis=(0,1))`: sum of all entries. -/
def np_sum_all (m : Mat) : ℚ := (m.map List.sum).sum

/-- Result of `np.sum` with an `axes` argument: a scalar or a 1-d vector. -/
inductive NpSum
  | scalar (x : ℚ)
  | vec (v : List ℚ)
  deriving DecidableEq

/-- The two axis specifications the program passes to the `*_matrix_mul`
functions: `axes = 0` (per class) and `axes = (0, 1)` (all axes). -/
inductive Axes
  | axis0
  | axes01
  deriving DecidableEq

/-- `np.sum(m, axis=axes)` for the two axis specifications in use. -/
def np_sum (m : Mat) : Axes → NpSum
  | .axis0 => .vec (np_sum_axis0 m)
  | .axes01 => .scalar (np_sum_all m)

/-- View an `NpSum` as a vector (the program only does this on `axis0` results). -/
def NpSum.vecD : NpSum → List ℚ
  | .vec v => v
  | .scalar x => [x]

/-- View an `NpSum` as a scalar (the program only does this on `axes01` results). -/
def NpSum.scalarD : NpSum → ℚ
  | .scalar x => x
  | .vec _ => 0

/-! ### Confusion statistics (`tp_matrix_mul` and friends) -/

/-- `tp_matrix_mul`: `np.sum(np.minimum(pred, gold), axis=axes)`. -/
def tp_matrix_mul (pred gold : Mat) (axes : Axes) : NpSum :=
  np_sum (np_minimum pred gold) axes

/-- `fp_matrix_mul`: `np.sum(np.maximum(pred - gold, 0), axis=axes)`. -/
def fp_matrix_mul (pred gold : Mat) (axes : Axes) : NpSum :=
  np_sum (np_maximum0 (np_subtract pred gold)) axes

/-- `fn_matrix_mul`: `np.sum(np.maximum(gold - pred, 0), axis=axes)`. -/
def fn_matrix_mul (pred gold : Mat) (axes : Axes) : NpSum :=
  np_sum (np_maximum0 (np_subtract gold pred)) axes

/-- `tp_matrix_mul_full`: overall TP, `axes = (0, 1)`. -/
def tp_matrix_mul_full (pred gold : Mat) : NpSum := tp_matrix_mul pred gold .axes01

/-- `fp_matrix_mul_full`: overall FP, `axes = (0, 1)`. -/
def fp_matrix_mul_full (pred gold : Mat) : NpSum := fp_matrix_mul pred gold .axes01

/-- `fn_matrix_mul_full`: overall FN, `axes = (0, 1)`. -/
def fn_matrix_mul_full (pred gold : Mat) : NpSum := fn_matrix_mul pred gold .axes01

/-- `tp_matrix_mul_per_class`: per-class TP, `axes = 0`. -/
def tp_matrix_mul_per_class (pred gold : Mat) : NpSum := tp_matrix_mul pred gold .axis0

/-- `fp_matrix_mul_per_class`: per-class FP, `axes = 0`. -/
def fp_matrix_mul_per_class (pred gold : Mat) : NpSum := fp_matrix_mul pred gold .axis0

/-- `fn_matrix_mul_per_class`: per-class FN, `axes = 0`. -/
def fn_matrix_mul_per_class (pred gold : Mat) : NpSum := fn_matrix_mul pred gold .axis0

/-! ### Metric reports -/

/-- The denominator correction `denom + (denom == 0)*1` used throughout the
reporting functions. -/
def correct_denom (d : ℚ) : ℚ := d + (if d = 0 then 1 else 0)

/-- A ratio with the zero-denominator correction applied, `num / correct_denom d`.
Each precision, recall and F1 in the source is of this shape. -/
def guarded_ratio (num d : ℚ) : ℚ := num / correct_denom d

/-- One row of the per-class dataframe built by `report`. -/
structure ReportRow where
  precision : ℚ
  recl : ℚ
  f1 : ℚ
  support : ℚ
  code : Code
  deriving DecidableEq

/-- Insert a key into a sorted key list (ascending). -/
def insertSorted (x : Nat) : List Nat → List Nat
  | [] => [x]
  | y :: ys => if x ≤ y then x :: y :: ys else y :: insertSorted x ys

/-- `sorted(d)` on dictionary keys: the keys in ascending order. -/
def sortKeys (l : List Nat) : List Nat := l.foldr insertSorted []

/-- `list(zip(prec, rec, f1, support, codes))` assembled into dataframe rows;
`zip` truncates to the shortest input. -/
def buildRows : List ℚ → List ℚ → List ℚ → List ℚ → List Code → List ReportRow
  | p :: ps, r :: rs, f :: fs, s :: ss, c :: cs =>
      ⟨p, r, f, s, c⟩ :: buildRows ps rs fs ss cs
  | _, _, _, _, _ => []

/-- `report(pred, gold, code_id_dict)`: the per-class dataframe with
Precision, Recall, F1, Support and Code columns. -/
def report (pred gold : Mat) (code_id_dict : List (Nat × Code)) : List ReportRow :=
  let tp := (tp_matrix_mul_per_class pred gold).vecD
  let fp := (fp_matrix_mul_per_class pred gold).vecD
  let fn := (fn_matrix_mul_per_class pred gold).vecD
  let support := np_sum_axis0 gold
  let prec := List.zipWith (fun t f => guarded_ratio t (t + f)) tp fp
  let recl := List.zipWith (fun t f => guarded_ratio t (t + f)) tp fn
  let f1 := List.zipWith (fun p r => guarded_ratio (2 * (p * r)) (p + r)) prec recl
  let codes := (sortKeys (code_id_dict.map Prod.fst)).map
    (fun k => (alookup code_id_dict k).getD default)
  buildRows prec recl f1 support codes

/-- The dictionary `{"Precision": _, "Recall": _, "F1": _}` returned by the
micro and macro reports. -/
structure AggReport where
  precision : ℚ
  recl : ℚ
  f1 : ℚ
  deriving DecidableEq

/-- `report_micro(pred, gold)`: global TP/FP/FN, then guarded ratios. -/
def report_micro (pred gold : Mat) : AggReport :=
  let tp := (tp_matrix_mul_full pred gold).scalarD
  let fp := (fp_matrix_mul_full pred gold).scalarD
  let fn := (fn_matrix_mul_full pred gold).scalarD
  let prec_micro := guarded_ratio tp (tp + fp)
  let rec_micro := guarded_ratio tp (tp + fn)
  let f1 := guarded_ratio (2 * (prec_micro * rec_micro)) (prec_micro + rec_micro)
  ⟨prec_micro, rec_micro, f1⟩

/-- `np.average(v, axis=0)` on a 1-d vector: the arithmetic mean. -/
def npAverage (l : List ℚ) : ℚ := l.sum / l.length

/-- `report_macro(pred, gold)`: unweighted means of the guarded per-class
precision and recall, then F1 derived from those two means. -/
def report_macro (pred gold : Mat) : AggReport :=
  let tp := (tp_matrix_mul_per_class pred gold).vecD
  let fp := (fp_matrix_mul_per_class pred gold).vecD
  let fn := (fn_matrix_mul_per_class pred gold).vecD
  let prec := List.zipWith (fun t f => guarded_ratio t (t + f)) tp fp
  let prec_macro := npAverage prec
  let recl := List.zipWith (fun t f => guarded_ratio t (t + f)) tp fn
  let rec_macro := npAverage recl
  let f1 := guarded_ratio (2 * ( prec_macro * rec_macro)) ( prec_macro + rec_macro)
  ⟨ prec_macro, rec_macro, f1⟩

/-- `(m > 0) * 1`: map every positive entry to 1 and every other entry to 0. -/
def binarized (m : Mat) : Mat :=
  m.map (fun row => row.map (fun x => if 0 < x then (1 : ℚ) else 0))

/-- `report_macro_bin`: binarize both matrices, then delegate to `report_macro`. -/
def report_macro_bin (pred gold : Mat) : AggReport :=
  report_macro (binarized pred) (binarized gold)

/-- `report_micro_bin`: binarize both matrices, then delegate to `report_micro`. -/
def report_micro_bin (pred gold : Mat) : AggReport :=
  report_micro (binarized pred) (binarized gold)

/-- `report_bin(pred, gold)`: binarizes both inputs and then evaluates
`report(pred_bin, gold_bin)`.  `report` requires three positional arguments
`(pred, gold, code_id_dict)`, and the call supplies only two, so every call
raises `TypeError` before any report is produced. -/
def report_bin (pred gold : Mat) : Except PyErr (List ReportRow) :=
  let pred_bin := binarized pred
  let gold_bin := binarized gold
  Except.error PyErr.typeError

/-! ### Transition-matrix construction (`evaluation_setup.py`)

`translation_dict` maps a code to a dictionary whose only consulted key is
`"parents"`, an ordered list of ancestor codes; we model it as a map from code
to that parent list directly.  `code_ids` is a Python dict mapping leaf codes
to their dense indices; Python dicts iterate in insertion order, so a list of
pairs models both the mapping and the iteration order.  The intermediate
`layer_codeset` is a Python `set`, whose iteration order is unspecified; we
model one definite enumeration order (`List.dedup`'s).  None of the verified
properties depends on which enumeration order the set produces. -/

abbrev TransDict := List (Code × List Code)

/-- `translation_dict[c]["parents"][layer]`: the ancestor of `c` at the given
layer, `none` when either lookup raises (`KeyError`/`IndexError`). -/
def ancestorAt (td : TransDict) (c : Code) (layer : Nat) : Option Code :=
  (alookup td c).bind (fun ps => ps.get? layer)

/-- Total version of `ancestorAt`, used in positions the success guard covers. -/
def ancOf (td : TransDict) (c : Code) (layer : Nat) : Code :=
  (ancestorAt td c layer).getD default

/-- The ancestors at a layer of all codes of `code_ids`, in iteration order
(lines 21-22 of the source collect these into `layer_codeset`). -/
def layerAncestors (code_ids : List (Code × Nat)) (td : TransDict) (layer : Nat) : List Code :=
  code_ids.map (fun p => ancOf td p.1 layer)

/-- `layer_codeset` as an enumeration: the distinct ancestors at the layer. -/
def layer_codeset (code_ids : List (Code × Nat)) (td : TransDict) (layer : Nat) : List Code :=
  (layerAncestors code_ids td layer).dedup

/-- `layer_id_dict = dict(zip(list(layer_codeset), layer_ranges))`: each pair
associates an ancestor code (key) with its dense index (value). -/
def layer_id_dict (code_ids : List (Code × Nat)) (td : TransDict) (layer : Nat) :
    List (Code × Nat) :=
  (layer_codeset code_ids td layer).zip (List.range (layer_codeset code_ids td layer).length)

/-- The value appended to `vals` for one code (source lines 31-36): `1` when
duplicates are allowed or the next layer is the final one; otherwise `0`
exactly when the ancestor's own ancestor at the same layer index equals the
code.  The layer comparison is over ℤ because Python's `max_layer-2` can be
negative. -/
def emitted_val (td : TransDict) (maxLayer : Nat) (includeDup : Bool) (layer : Nat)
    (c : Code) : Int :=
  if includeDup || decide ((layer : Int) = (maxLayer : Int) - 2) then 1
  else if ancOf td (ancOf td c layer) layer = c then 0 else 1

/-- The `(row, col, val)` triples collected for one layer's sparse matrix
(source lines 27-36): row = the code's dense index, col = the dense index of
its ancestor at the layer, val = `emitted_val`. -/
def layerEntries (code_ids : List (Code × Nat)) (td : TransDict) (maxLayer : Nat)
    (includeDup : Bool) (layer : Nat) : List (Nat × Nat × Int) :=
  code_ids.map (fun p =>
    (p.2,
     (alookup (layer_id_dict code_ids td layer) (ancOf td p.1 layer)).getD 0,
     emitted_val td maxLayer includeDup layer p.1))

/-- A `csr_matrix((vals, (rows, cols)), shape)`: the triples plus the shape;
entries at the same position are summed by the csr construction. -/
structure CSR where
  entries : List (Nat × Nat × Int)
  shape : Nat × Nat
  deriving DecidableEq

/-- The dense value of a csr matrix at `(i, j)`: the sum of all collected
values at that position. -/
def CSR.entry (m : CSR) (i j : Nat) : Int :=
  ((m.entries.filter (fun e => decide (e.1 = i ∧ e.2.1 = j))).map (fun e => e.2.2)).sum

/-- The sum of row `i` of a csr matrix. -/
def CSR.rowSum (m : CSR) (i : Nat) : Int :=
  ((m.entries.filter (fun e => decide (e.1 = i))).map (fun e => e.2.2)).sum

/-- The sparse matrix built for one layer, with shape
`(len(rows), len(set(cols)))` as on source line 38. -/
def layerMatrix (code_ids : List (Code × Nat)) (td : TransDict) (maxLayer : Nat)
    (includeDup : Bool) (layer : Nat) : CSR :=
  ⟨layerEntries code_ids td maxLayer includeDup layer,
   (code_ids.length,
    ((layerEntries code_ids td maxLayer includeDup layer).map (fun e => e.2.1)).dedup.length)⟩

/-- All dictionary/list lookups performed while processing one layer succeed:
each code's ancestor at the layer exists, and — when the suppression branch
runs (duplicates disallowed and the layer is not `max_layer-2`) — each such
ancestor is itself a key whose parent list reaches the layer. -/
def layerOk (code_ids : List (Code × Nat)) (td : TransDict) (maxLayer : Nat)
    (includeDup : Bool) (layer : Nat) : Bool :=
  code_ids.all (fun p => (ancestorAt td p.1 layer).isSome) &&
  (includeDup || decide ((layer : Int) = (maxLayer : Int) - 2) ||
   code_ids.all (fun p =>
     match ancestorAt td p.1 layer with
     | some a => (ancestorAt td a layer).isSome
     | none => false))

/-- `setup_matrices_by_layer(code_ids, translation_dict, max_layer,
include_duplicates)`: one transition matrix and one id dictionary per layer
`0..max_layer-1`.  Python raises the first `LookupError` it meets; the
embedding raises iff any lookup of any processed layer fails, which coincides
with the source's raising behaviour. -/
def setup_matrices_by_layer (code_ids : List (Code × Nat)) (td : TransDict)
    (maxLayer : Nat) (includeDup : Bool) :
    Except PyErr (List CSR × List (List (Code × Nat))) :=
  if (List.range maxLayer).all (layerOk code_ids td maxLayer includeDup) then
    .ok ((List.range maxLayer).map (layerMatrix code_ids td maxLayer includeDup),
         (List.range maxLayer).map (layer_id_dict code_ids td))
  else .error PyErr.lookupError

/-! ### The layer projector (`low_level_diagonal`, `hierarchical_eval_setup`)

The docstring of `hierarchical_eval_setup` declares its inputs to be numpy
arrays, so `*` below is numpy's elementwise (Hadamard) product with
broadcasting, and invalid broadcasts raise (`none`). -/

/-- `np.sum(matrix, axis=1)`: per-row sums. -/
def np_sum_axis1 (m : Mat) : List ℚ := m.map List.sum

/-- `np.diag(v)` on a 1-d vector: the square matrix with `v` on the diagonal. -/
def np_diag (v : List ℚ) : Mat :=
  (List.range v.length).map (fun i =>
    (List.range v.length).map (fun j => if i = j then v.getD i 0 else 0))

/-- `low_level_diagonal(matrix)`: `np.diag(np.sum(matrix, axis=1))`. -/
def low_level_diagonal (matrix : Mat) : Mat := np_diag (np_sum_axis1 matrix)

/-- Broadcast read of entry `(i, j)` from a matrix whose shape is
`(rows, cols)`: a dimension of size 1 is repeated. -/
def bval (m : Mat) (rows cols i j : Nat) : ℚ :=
  (m.getD (if rows = 1 then 0 else i) []).getD (if cols = 1 then 0 else j) 0

/-- numpy `x * y` on 2-d arrays: elementwise product with broadcasting;
`none` models the `ValueError` raised on incompatible shapes. -/
def np_mul (x y : Mat) : Option Mat :=
  let a := x.length
  let b := numCols x
  let c := y.length
  let d := numCols y
  if (a = c ∨ a = 1 ∨ c = 1) ∧ (b = d ∨ b = 1 ∨ d = 1) then
    some ((List.range (max a c)).map (fun i =>
      (List.range (max b d)).map (fun j => bval x a b i j * bval y c d i j)))
  else none

/-- `np.concatenate(ms, 1)`: horizontal concatenation; all pieces must have
the same number of rows. -/
def np_concatenate1 : List Mat → Option Mat
  | [] => none
  | m :: ms =>
      if ms.all (fun x => x.length = m.length) then
        some (ms.foldl (fun acc x => List.zipWith (fun r s => r ++ s) acc x) m)
      else none

/-- `hierarchical_eval_setup(preds, golds, layer_matrices, max_onto_layers)`:
the leaf-level component `preds * low_level_diagonal(layer_matrices[0])`
followed by one projected component per layer, concatenated column-wise. -/
def hierarchical_eval_setup (preds golds : Mat) (layer_matrices : List Mat)
    (max_onto_layers : Nat) : Option (Mat × Mat) := do
  let m0 ← layer_matrices.get? 0
  let lowest_layer_filter := low_level_diagonal m0
  let p0 ← np_mul preds lowest_layer_filter
  let g0 ← np_mul golds lowest_layer_filter
  let rest ← (List.range max_onto_layers).mapM (fun i => do
    let tm ← layer_matrices.get? i
    let tp ← np_mul preds tm
    let tg ← np_mul golds tm
    pure (tp, tg))
  let combined_preds ← np_concatenate1 (p0 :: rest.map Prod.fst)
  let combined_golds ← np_concatenate1 (g0 :: rest.map Prod.snd)
  pure (combined_preds, combined_golds)

/-! ### Untyped view of the per-layer id dictionaries

Python dictionaries are untyped; to state claims about the *direction* of the
id dictionaries (index-to-code versus code-to-index) we expose the dictionary
entries as Python values. -/

/-- A Python value: an integer or a string. -/
inductive PyVal
  | int (n : Int)
  | str (s : String)
  deriving DecidableEq

/-- The entries of a `layer_id_dict` as Python key/value pairs: keys are the
ancestor code strings and values are the dense integer indices. -/
def pyDictEntries (d : List (Code × Nat)) : List (PyVal × PyVal) :=
  d.map (fun p => (PyVal.str p.1, PyVal.int (p.2 : Int)))

/-- Subscription `d[k]` on the untyped dictionary view. -/
def pyLookup (d : List (PyVal × PyVal)) (k : PyVal) : Option PyVal := alookup d k

/-! ### Spec-side definitions

These follow the specification's words (not the source) and are compared with
the source-derived definitions above. -/

/-- The per-class true-positive count as the spec words it: for class `j`,
the sum over instances of the elementwise minimum of `pred` and `gold`. -/
def specTP (pred gold : Mat) (j : Nat) : ℚ :=
  (List.zipWith (fun r s => min (r.getD j 0) (s.getD j 0)) pred gold).sum

/-- The per-class false-positive count: sum of `max(pred - gold, 0)`. -/
def specFP (pred gold : Mat) (j : Nat) : ℚ :=
  (List.zipWith (fun r s => max (r.getD j 0 - s.getD j 0) 0) pred gold).sum

/-- The per-class false-negative count: sum of `max(gold - pred, 0)`. -/
def specFN (pred gold : Mat) (j : Nat) : ℚ :=
  (List.zipWith (fun r s => max (s.getD j 0 - r.getD j 0) 0) pred gold).sum

/-- The spec's zero-division policy: when a denominator is exactly 0,
substitute 1 as the denominator. -/
def specGuard (d : ℚ) : ℚ := if d = 0 then 1 else d

/-- The transition-matrix entry value claim C1 asserts: 1 when duplicates are
included or the layer is `max_layer-2`; otherwise 0 exactly when the
ancestor's own ancestor at the same layer equals the leaf code. -/
def claimed_entry_val (td : TransDict) (includeDup : Bool) (maxLayer layer : Nat)
    (c a : Code) : Int :=
  if includeDup = true ∨ (layer : Int) = (maxLayer : Int) - 2 then 1
  else if ancestorAt td a layer = some c then 0 else 1

/-- Ordinary matrix multiplication, used to state what the specification means
by multiplying `pred` by the diagonal filter matrix. -/
def matMulSpec (x y : Mat) : Mat :=
  x.map (fun row =>
    (List.range (numCols y)).map (fun j =>
      (List.zipWith (fun a yr => a * yr.getD j 0) row y).sum))

/-- The leaf-level component as the specification words it: `pred` multiplied
(as a matrix product) by the diagonal matrix of the per-leaf row sums of
`layer_matrices[0]`. -/
def spec_leaf_component (preds m0 : Mat) : Mat :=
  matMulSpec preds (low_level_diagonal m0)

/-! ### Shape and sign predicates -/

/-- Every entry of the matrix is non-negative. -/
def MatNonneg (m : Mat) : Prop := ∀ row ∈ m, ∀ x ∈ row, 0 ≤ x

/-- Every entry of the matrix is zero. -/
def MatZero (m : Mat) : Prop := ∀ row ∈ m, ∀ x ∈ row, x = 0

/-- The matrix has `n` rows, each of length `k`. -/
def Rect (m : Mat) (n k : Nat) : Prop := m.length = n ∧ ∀ row ∈ m, row.length = k

instance (m : Mat) : Decidable (MatNonneg m) := by unfold MatNonneg; infer_instance

instance (m : Mat) : Decidable (MatZero m) := by unfold MatZero; infer_instance

instance (m : Mat) (n k : Nat) : Decidable (Rect m n k) := by unfold Rect; infer_instance

/-! ### Helper lemmas about lists -/

theorem exists_of_zipWith_mem {α β γ : Type} {f : α → β → γ} :
    ∀ {l1 : List α} {l2 : List β} {x : γ}, x ∈ List.zipWith f l1 l2 →
      ∃ a ∈ l1, ∃ b ∈ l2, x = f a b := by
  intro l1
  induction l1 with
  | nil => intro l2 x h; simp at h
  | cons a t ih =>
      intro l2 x h
      cases l2 with
      | nil => simp at h
      | cons b s =>
          simp only [List.zipWith_cons_cons, List.mem_cons] at h
          rcases h with h | h
          · exact ⟨a, by simp, b, by simp, h⟩
          · rcases ih h with ⟨a', ha', b', hb', hx⟩
            exact ⟨a', by simp [ha'], b', by simp [hb'], hx⟩

theorem zipWith_congr_mem {α β γ : Type} {f g : α → β → γ} :
    ∀ {l1 : List α} {l2 : List β}, (∀ a ∈ l1, ∀ b ∈ l2, f a b = g a b) →
      List.zipWith f l1 l2 = List.zipWith g l1 l2 := by
  intro l1
  induction l1 with
  | nil => intro l2 _; simp
  | cons a t ih =>
      intro l2 h
      cases l2 with
      | nil => simp
      | cons b s =>
          simp only [List.zipWith_cons_cons]
          refine congrArg₂ _ (h a (by simp) b (by simp)) (ih ?_)
          intro a' ha' b' hb'
          exact h a' (by simp [ha']) b' (by simp [hb'])

theorem getD_zipWith0 (f : ℚ → ℚ → ℚ) (r s : List ℚ) (j : Nat)
    (hr : j < r.length) (hs : j < s.length) :
    (List.zipWith f r s).getD j 0 = f (r.getD j 0) (s.getD j 0) := by
  have hz : j < (List.zipWith f r s).length := by
    simp [List.length_zipWith]; omega
  rw [List.getD_eq_getElem?_getD, List.getElem?_eq_getElem hz,
      List.getD_eq_getElem?_getD, List.getElem?_eq_getElem hr,
      List.getD_eq_getElem?_getD, List.getElem?_eq_getElem hs]
  simp [List.getElem_zipWith]

theorem getD_mem_or_zero (l : List ℚ) (j : Nat) : l.getD j 0 ∈ l ∨ l.getD j 0 = 0 := by
  by_cases h : j < l.length
  · left
    rw [List.getD_eq_getElem?_getD, List.getElem?_eq_getElem h]
    exact List.getElem_mem h
  · right
    rw [List.getD_eq_getElem?_getD, List.getElem?_eq_none (by omega)]
    rfl

theorem sum_getD_range (l : List ℚ) :
    l.sum = ((List.range l.length).map (fun j => l.getD j 0)).sum := by
  induction l with
  | nil => simp
  | cons x t ih =>
      have h1 : ((List.range t.length).map (fun j => (x :: t).getD (j + 1) 0)) =
          (List.range t.length).map (fun j => t.getD j 0) :=
        List.map_congr_left (fun j _ => rfl)
      have h2 : (List.range (x :: t).length).map (fun j => (x :: t).getD j 0) =
          x :: (List.range t.length).map (fun j => t.getD j 0) := by
        rw [List.length_cons, List.range_succ_eq_map, List.map_cons, List.map_map, ← h1]
        rfl
      rw [h2]
      simp only [List.sum_cons]
      rw [ih]

theorem np_sum_all_by_cols (m : Mat) (k : Nat) (h : ∀ row ∈ m, row.length = k) :
    np_sum_all m = ((List.range k).map (fun j => (col m j).sum)).sum := by
  induction m with
  | nil =>
      have hz : ∀ x ∈ (List.range k).map (fun j => (col ([] : Mat) j).sum), x = 0 := by
        intro x hx
        rcases List.mem_map.mp hx with ⟨j, _, hj⟩
        rw [← hj]
        simp [col]
      simp only [np_sum_all, List.map_nil, List.sum_nil]
      exact (List.sum_eq_zero hz).symm
  | cons r t ih =>
      have hr : r.length = k := h r (List.mem_cons_self r t)
      have ht : ∀ row ∈ t, row.length = k := fun row hrow => h row (List.mem_cons_of_mem r hrow)
      have hsum : np_sum_all (r :: t) = r.sum + np_sum_all t := by
        simp [np_sum_all]
      rw [hsum, ih ht, sum_getD_range r, hr, ← List.sum_map_add]
      refine congrArg List.sum (List.map_congr_left ?_)
      intro j _
      simp [col]

/-! ### Helper lemmas about the transition-matrix builder -/

theorem setup_ok_elim (code_ids : List (Code × Nat)) (td : TransDict) (maxLayer : Nat)
    (includeDup : Bool) (ms : List CSR) (ds : List (List (Code × Nat)))
    (hok : setup_matrices_by_layer code_ids td maxLayer includeDup = .ok (ms, ds)) :
    ((List.range maxLayer).all (layerOk code_ids td maxLayer includeDup) = true) ∧
    ms = (List.range maxLayer).map (layerMatrix code_ids td maxLayer includeDup) ∧
    ds = (List.range maxLayer).map (layer_id_dict code_ids td) := by
  unfold setup_matrices_by_layer at hok
  by_cases hg : (List.range maxLayer).all (layerOk code_ids td maxLayer includeDup) = true
  · rw [if_pos hg] at hok
    simp only [Except.ok.injEq, Prod.mk.injEq] at hok
    exact ⟨hg, hok.1.symm, hok.2.symm⟩
  · rw [if_neg hg] at hok
    exact Except.noConfusion hok

theorem getElem_map_range {α : Type} (f : Nat → α) (n L : Nat) (x : α)
    (h : ((List.range n).map f)[L]? = some x) : L < n ∧ x = f L := by
  rw [List.getElem?_map] at h
  by_cases hL : L < n
  · rw [List.getElem?_range hL] at h
    simp only [Option.map_some', Option.some.injEq] at h
    exact ⟨hL, h.symm⟩
  · rw [List.getElem?_eq_none (by simp [List.length_range]; omega)] at h
    simp at h

theorem layerOk_of_ok (code_ids : List (Code × Nat)) (td : TransDict) (maxLayer : Nat)
    (includeDup : Bool) (L : Nat)
    (hall : (List.range maxLayer).all (layerOk code_ids td maxLayer includeDup) = true)
    (hL : L < maxLayer) :
    layerOk code_ids td maxLayer includeDup L = true := by
  rw [List.all_eq_true] at hall
  exact hall L (List.mem_range.mpr hL)

theorem leaf_lookup_of_layerOk (code_ids : List (Code × Nat)) (td : TransDict)
    (maxLayer : Nat) (includeDup : Bool) (L : Nat) (c : Code) (i : Nat)
    (h : layerOk code_ids td maxLayer includeDup L = true) (hc : (c, i) ∈ code_ids) :
    (ancestorAt td c L).isSome = true := by
  unfold layerOk at h
  rw [Bool.and_eq_true] at h
  have h1 := h.1
  rw [List.all_eq_true] at h1
  exact h1 (c, i) hc

theorem anc_anc_of_layerOk (code_ids : List (Code × Nat)) (td : TransDict)
    (maxLayer : Nat) (L : Nat) (c : Code) (i : Nat) (a : Code)
    (h : layerOk code_ids td maxLayer false L = true) (hc : (c, i) ∈ code_ids)
    (hL2 : ¬ ((L : Int) = (maxLayer : Int) - 2))
    (ha : ancestorAt td c L = some a) :
    (ancestorAt td a L).isSome = true := by
  unfold layerOk at h
  rw [Bool.and_eq_true] at h
  have h2 := h.2
  rw [Bool.false_or, decide_eq_false hL2, Bool.false_or, List.all_eq_true] at h2
  have := h2 (c, i) hc
  rw [ha] at this
  exact this

theorem entry_emitted (code_ids : List (Code × Nat)) (td : TransDict) (maxLayer : Nat)
    (includeDup : Bool) (L : Nat) (c : Code) (i j : Nat) (a : Code)
    (hc : (c, i) ∈ code_ids)
    (ha : ancestorAt td c L = some a)
    (hj : alookup (layer_id_dict code_ids td L) a = some j) :
    (i, j, emitted_val td maxLayer includeDup L c) ∈
      (layerMatrix code_ids td maxLayer includeDup L).entries := by
  have hanc : ancOf td c L = a := by rw [ancOf, ha]; rfl
  have hmem : (i, (alookup (layer_id_dict code_ids td L) (ancOf td c L)).getD 0,
      emitted_val td maxLayer includeDup L c) ∈
      layerEntries code_ids td maxLayer includeDup L :=
    List.mem_map_of_mem _ hc
  rw [hanc, hj] at hmem
  simp only [Option.getD_some] at hmem
  exact hmem

theorem ancestorAt_isSome_iff (td : TransDict) (a : Code) (L : Nat) :
    (ancestorAt td a L).isSome = true ↔
      ∃ qs, alookup td a = some qs ∧ L < qs.length := by
  unfold ancestorAt
  cases h : alookup td a with
  | none => simp
  | some qs =>
      simp only [Option.some_bind]
      constructor
      · intro hs
        refine ⟨qs, rfl, ?_⟩
        by_contra hlen
        rw [List.get?_eq_none.mpr (by omega)] at hs
        simp at hs
      · rintro ⟨qs', hq, hlen⟩
        have hqq : qs' = qs := by
          injection hq with hh
          exact hh.symm
        subst hqq
        rw [List.get?_eq_get hlen]
        rfl

theorem filter_row_not_mem (f : Code × Nat → Nat × Nat × Int)
    (hrow : ∀ p, (f p).1 = p.2) :
    ∀ (t : List (Code × Nat)) (i : Nat), i ∉ t.map Prod.snd →
      (t.map f).filter (fun e => decide (e.1 = i)) = [] := by
  intro t
  induction t with
  | nil => intro i _; rfl
  | cons p s ih =>
      intro i hi
      simp only [List.map_cons, List.mem_cons, not_or] at hi
      have hne : ¬ ((f p).1 = i) := by
        rw [hrow p]
        exact fun h => hi.1 h.symm
      simp only [List.map_cons, List.filter_cons, decide_eq_true_eq, hne, if_false,
        decide_eq_false hne]
      exact ih i hi.2

theorem filtered_sum_single (f : Code × Nat → Nat × Nat × Int)
    (hrow : ∀ p, (f p).1 = p.2) (hval : ∀ p, (f p).2.2 = 1) :
    ∀ (l : List (Code × Nat)) (c : Code) (i : Nat),
      (l.map Prod.snd).Nodup → (c, i) ∈ l →
      (((l.map f).filter (fun e => decide (e.1 = i))).map (fun e => e.2.2)).sum = 1 := by
  intro l
  induction l with
  | nil => intro c i _ h; simp at h
  | cons p s ih =>
      intro c i hnd hmem
      simp only [List.map_cons, List.nodup_cons] at hnd
      by_cases hpi : (f p).1 = i
      · have hnot : i ∉ s.map Prod.snd := by
          rw [← hrow p] at hnd
          rw [← hpi]
          exact hnd.1
        simp only [List.map_cons, List.filter_cons, decide_eq_true_eq, hpi, if_true,
          decide_eq_false, filter_row_not_mem f hrow s i hnot, List.map_cons, List.map_nil,
          List.sum_cons, List.sum_nil, hval p]
        simp [hval p]
      · have hmem' : (c, i) ∈ s := by
          rcases List.mem_cons.mp hmem with h | h
          · exfalso
            apply hpi
            rw [hrow p, ← h]
          · exact h
        simp only [List.map_cons, List.filter_cons, decide_eq_true_eq, hpi, if_false]
        exact ih c i hnd.2 hmem'

theorem mem_zip_range {α : Type} (l : List α) (a : α) (h : a ∈ l) :
    ∃ k, (a, k) ∈ l.zip (List.range l.length) := by
  rcases List.mem_iff_getElem.mp h with ⟨idx, hidx, heq⟩
  have hzlen : idx < (l.zip (List.range l.length)).length := by
    rw [List.length_zip l (List.range l.length)]
    simp [List.length_range]
    omega
  refine ⟨idx, ?_⟩
  have hval : (l.zip (List.range l.length))[idx]? = some (a, idx) := by
    rw [List.getElem?_eq_getElem hzlen, List.getElem_zip, List.getElem_range, heq]
  exact List.getElem?_mem hval

/-! ### Claim theorems: transition-matrix builder -/

/-- Claim C1: for every successful `setup_matrices_by_layer` run, the entry
emitted at `(leaf_index, ancestor_index)` for layer `L` is 1 if
`include_duplicates` is true or `L` equals `max_layer-2`, and otherwise is 1
unless the ancestor's own ancestor at layer `L` equals the original leaf code,
in which case it is 0. -/
theorem setup_entry_value_spec (code_ids : List (Code × Nat)) (td : TransDict)
    (maxLayer : Nat) (includeDup : Bool) (ms : List CSR) (ds : List (List (Code × Nat)))
    (L : Nat) (m : CSR) (c : Code) (i j : Nat) (a : Code)
    (hok : setup_matrices_by_layer code_ids td maxLayer includeDup = .ok (ms, ds))
    (hm : ms[L]? = some m)
    (hc : (c, i) ∈ code_ids)
    (ha : ancestorAt td c L = some a)
    (hj : alookup (layer_id_dict code_ids td L) a = some j) :
    (i, j, claimed_entry_val td includeDup maxLayer L c a) ∈ m.entries := by
  obtain ⟨hall, hms, -⟩ := setup_ok_elim _ _ _ _ _ _ hok
  subst hms
  obtain ⟨hL, hmEq⟩ := getElem_map_range _ _ _ _ hm
  subst hmEq
  have hmem := entry_emitted code_ids td maxLayer includeDup L c i j a hc ha hj
  have hval : emitted_val td maxLayer includeDup L c =
      claimed_entry_val td includeDup maxLayer L c a := by
    by_cases hdup : includeDup = true
    · simp [emitted_val, claimed_entry_val, hdup]
    · have hdup' : includeDup = false := by
        cases includeDup
        · rfl
        · exact absurd rfl hdup
      by_cases hL2 : (L : Int) = (maxLayer : Int) - 2
      · simp [emitted_val, claimed_entry_val, hL2]
      · have hsome := anc_anc_of_layerOk code_ids td maxLayer L c i a
          (by rw [← hdup']; exact layerOk_of_ok _ _ _ _ _ hall hL) hc hL2 ha
        obtain ⟨da, hda⟩ := Option.isSome_iff_exists.mp hsome
        have hancOf : ancOf td c L = a := by rw [ancOf, ha]; rfl
        have hancOf2 : ancOf td a L = da := by rw [ancOf, hda]; rfl
        unfold emitted_val claimed_entry_val
        rw [hdup', hancOf, hancOf2, hda]
        rw [if_neg (show ¬ ((false || decide ((L : Int) = (maxLayer : Int) - 2)) = true) from by
          simp [decide_eq_false hL2])]
        rw [if_neg (show ¬ ((false = true) ∨ (L : Int) = (maxLayer : Int) - 2) from by
          simp [hL2])]
        by_cases hdc : da = c
        · rw [if_pos hdc, if_pos (by rw [hdc])]
        · rw [if_neg hdc, if_neg (fun hh => hdc (Option.some.inj hh))]
  rw [← hval]
  exact hmem

/-- Claim C1 witness: concrete instantiation with one leaf `x` whose layer-0
ancestor is `p`, duplicates included. -/
theorem setup_entry_value_spec_witness :
    setup_matrices_by_layer [(r"x", 0)] [(r"x", [r"p"])] 1 true =
      .ok ([⟨[(0, 0, 1)], (1, 1)⟩], [[(r"p", 0)]]) ∧
    (0, 0, claimed_entry_val [(r"x", [r"p"])] true 1 0 (r"x") (r"p")) ∈
      (⟨[(0, 0, 1)], (1, 1)⟩ : CSR).entries :=
  ⟨by decide,
   setup_entry_value_spec [(r"x", 0)] [(r"x", [r"p"])] 1 true
     [⟨[(0, 0, 1)], (1, 1)⟩] [[(r"p", 0)]] 0 ⟨[(0, 0, 1)], (1, 1)⟩
     (r"x") 0 0 (r"p") (by decide) (by decide) (by decide) (by decide) (by decide)⟩

/-- Claim C7: when `include_duplicates` is true, every row of every returned
transition matrix sums to exactly 1: each leaf contributes exactly one
ancestor entry, with value 1, per layer. -/
theorem row_sums_one_with_duplicates (code_ids : List (Code × Nat)) (td : TransDict)
    (maxLayer : Nat) (ms : List CSR) (ds : List (List (Code × Nat))) (m : CSR)
    (c : Code) (i : Nat)
    (hok : setup_matrices_by_layer code_ids td maxLayer true = .ok (ms, ds))
    (hnd : (code_ids.map Prod.snd).Nodup)
    (hm : m ∈ ms) (hc : (c, i) ∈ code_ids) :
    m.rowSum i = 1 := by
  obtain ⟨-, hms, -⟩ := setup_ok_elim _ _ _ _ _ _ hok
  subst hms
  rcases List.mem_map.mp hm with ⟨L, -, hLm⟩
  rw [← hLm]
  exact filtered_sum_single
    (fun p => (p.2, (alookup (layer_id_dict code_ids td L) (ancOf td p.1 L)).getD 0,
      emitted_val td maxLayer true L p.1))
    (fun p => rfl)
    (fun p => by simp [emitted_val])
    code_ids c i hnd hc

/-- Claim C7 witness: two leaves, one layer; the first leaf's row sums to 1. -/
theorem row_sums_one_with_duplicates_witness :
    setup_matrices_by_layer [(r"x", 0), (r"y", 1)] [(r"x", [r"p"]), (r"y", [r"q"])] 1 true =
      .ok ([⟨[(0, 0, 1), (1, 1, 1)], (2, 2)⟩], [[(r"p", 0), (r"q", 1)]]) ∧
    CSR.rowSum ⟨[(0, 0, 1), (1, 1, 1)], (2, 2)⟩ 0 = 1 :=
  ⟨by decide,
   row_sums_one_with_duplicates [(r"x", 0), (r"y", 1)] [(r"x", [r"p"]), (r"y", [r"q"])] 1
     [⟨[(0, 0, 1), (1, 1, 1)], (2, 2)⟩] [[(r"p", 0), (r"q", 1)]]
     ⟨[(0, 0, 1), (1, 1, 1)], (2, 2)⟩ (r"x") 0
     (by decide) (by decide) (by decide) (by decide)⟩

/-- Claim C8 counterexample: `code_ids = {x: 0}`,
`translation_dict = {x: {parents: [p]}, p: {parents: [x, z]}}`, `max_layer = 1`,
`include_duplicates = False`.  Suppression is active at layer 0 (`0 ≠ -1`), and
the entry emitted for leaf `x` is 0 because `p`'s parent at the SAME layer
index 0 is `x`; yet `p`'s parent at the next layer index `0+1` is `z ≠ x`, so
the claim — which predicates the forced 0 on the next layer's parent — is
false on this input. -/
theorem suppression_layer_index_cex :
    setup_matrices_by_layer [(r"x", 0)] [(r"x", [r"p"]), (r"p", [r"x", r"z"])] 1 false =
      .ok ([⟨[(0, 0, 0)], (1, 1)⟩], [[(r"p", 0)]]) ∧
    ((0 : Int) ≠ (1 : Int) - 2) ∧
    ancestorAt [(r"x", [r"p"]), (r"p", [r"x", r"z"])] (r"p") (0 + 1) ≠ some (r"x") :=
  ⟨by decide, by decide, by decide⟩

/-- Claim C8 amended: when suppression is active (`include_duplicates` false
and `L ≠ max_layer-2` over ℤ), the entry emitted for leaf `c` and its layer-`L`
ancestor `a` is forced to 0 exactly when the ancestor's own ancestor at the
same layer index `L` (`translation_dict[a]["parents"][L]`) equals the original
leaf's code. -/
theorem suppression_same_layer_index (code_ids : List (Code × Nat)) (td : TransDict)
    (maxLayer : Nat) (ms : List CSR) (ds : List (List (Code × Nat)))
    (L : Nat) (m : CSR) (c : Code) (i j : Nat) (a : Code)
    (hok : setup_matrices_by_layer code_ids td maxLayer false = .ok (ms, ds))
    (hL2 : (L : Int) ≠ (maxLayer : Int) - 2)
    (hm : ms[L]? = some m)
    (hc : (c, i) ∈ code_ids)
    (ha : ancestorAt td c L = some a)
    (hj : alookup (layer_id_dict code_ids td L) a = some j) :
    (i, j, emitted_val td maxLayer false L c) ∈ m.entries ∧
    (emitted_val td maxLayer false L c = 0 ↔ ancestorAt td a L = some c) := by
  obtain ⟨hall, hms, -⟩ := setup_ok_elim _ _ _ _ _ _ hok
  subst hms
  obtain ⟨hL, hmEq⟩ := getElem_map_range _ _ _ _ hm
  subst hmEq
  refine ⟨entry_emitted code_ids td maxLayer false L c i j a hc ha hj, ?_⟩
  have hsome := anc_anc_of_layerOk code_ids td maxLayer L c i a
    (layerOk_of_ok _ _ _ _ _ hall hL) hc hL2 ha
  obtain ⟨da, hda⟩ := Option.isSome_iff_exists.mp hsome
  have hancOf : ancOf td c L = a := by rw [ancOf, ha]; rfl
  have hancOf2 : ancOf td a L = da := by rw [ancOf, hda]; rfl
  unfold emitted_val
  rw [hancOf, hancOf2, hda]
  simp only [Bool.false_or, decide_eq_false hL2, if_false]
  by_cases hdc : da = c
  · rw [if_pos hdc, hdc]
    simp
  · rw [if_neg hdc]
    constructor
    · intro h
      exact absurd h (by decide)
    · intro h
      exact absurd (Option.some.inj h) hdc

/-- Claim C8 amended witness: the counterexample input, where the emitted
value is 0 and the same-layer lookup indeed returns the leaf code. -/
theorem suppression_same_layer_index_witness :
    setup_matrices_by_layer [(r"x", 0)] [(r"x", [r"p"]), (r"p", [r"x", r"z"])] 1 false =
      .ok ([⟨[(0, 0, 0)], (1, 1)⟩], [[(r"p", 0)]]) ∧
    ((0, 0, emitted_val [(r"x", [r"p"]), (r"p", [r"x", r"z"])] 1 false 0 (r"x")) ∈
        (⟨[(0, 0, 0)], (1, 1)⟩ : CSR).entries ∧
      (emitted_val [(r"x", [r"p"]), (r"p", [r"x", r"z"])] 1 false 0 (r"x") = 0 ↔
        ancestorAt [(r"x", [r"p"]), (r"p", [r"x", r"z"])] (r"p") 0 = some (r"x"))) :=
  ⟨by decide,
   suppression_same_layer_index [(r"x", 0)] [(r"x", [r"p"]), (r"p", [r"x", r"z"])] 1
     [⟨[(0, 0, 0)], (1, 1)⟩] [[(r"p", 0)]] 0 ⟨[(0, 0, 0)], (1, 1)⟩
     (r"x") 0 0 (r"p")
     (by decide) (by decide) (by decide) (by decide) (by decide) (by decide)⟩

/-- Claim C9 counterexample: on a run with one leaf `x` with ancestor `p`, the
returned per-layer dictionary is `{p: 0}`: subscripting it with the dense
index `0` raises `KeyError` (no such key), while subscripting with the code
`p` returns the index 0.  The dictionary is therefore a `Map<Code, Index>`,
not the `Map<Index, Code>` the claim describes. -/
theorem id_dict_direction_cex :
    setup_matrices_by_layer [(r"x", 0)] [(r"x", [r"p"])] 1 true =
      .ok ([⟨[(0, 0, 1)], (1, 1)⟩], [[(r"p", 0)]]) ∧
    pyLookup (pyDictEntries [(r"p", 0)]) (PyVal.int 0) = none ∧
    pyLookup (pyDictEntries [(r"p", 0)]) (PyVal.str (r"p")) = some (PyVal.int 0) :=
  ⟨by decide, by decide, by decide⟩

/-- Claim C9 amended: the second component of a successful run is, per layer,
a map from ancestor code to dense index (the code-to-index direction): its
values are the dense indices `0..M-1` in enumeration order, its keys are
pairwise distinct and are exactly the ancestors at that layer of the leaves
(every key is some leaf's layer ancestor, and every leaf's layer ancestor is a
key). -/
theorem id_dict_code_to_index (code_ids : List (Code × Nat)) (td : TransDict)
    (maxLayer : Nat) (includeDup : Bool) (ms : List CSR) (ds : List (List (Code × Nat)))
    (L : Nat) (d : List (Code × Nat))
    (hok : setup_matrices_by_layer code_ids td maxLayer includeDup = .ok (ms, ds))
    (hd : ds[L]? = some d) :
    d.map Prod.snd = List.range d.length ∧
    (d.map Prod.fst).Nodup ∧
    (∀ q ∈ d, ∃ p ∈ code_ids, ancestorAt td p.1 L = some q.1) ∧
    (∀ p ∈ code_ids, ∃ k, (ancOf td p.1 L, k) ∈ d) := by
  obtain ⟨hall, -, hds⟩ := setup_ok_elim _ _ _ _ _ _ hok
  subst hds
  obtain ⟨hL, hdEq⟩ := getElem_map_range _ _ _ _ hd
  subst hdEq
  have hlen : (layer_id_dict code_ids td L).length = (layer_codeset code_ids td L).length := by
    unfold layer_id_dict
    rw [List.length_zip _ _]
    simp [List.length_range]
  refine ⟨?_, ?_, ?_, ?_⟩
  · rw [hlen]
    unfold layer_id_dict
    exact List.map_snd_zip _ _ (by simp [List.length_range])
  · have hfst : (layer_id_dict code_ids td L).map Prod.fst = layer_codeset code_ids td L := by
      unfold layer_id_dict
      exact List.map_fst_zip _ _ (by simp [List.length_range])
    rw [hfst]
    exact List.nodup_dedup _
  · rintro ⟨a, k⟩ hq
    have haS : a ∈ layer_codeset code_ids td L := by
      have := List.of_mem_zip hq
      exact this.1
    rw [layer_codeset, List.mem_dedup] at haS
    rcases List.mem_map.mp haS with ⟨p, hp, hanc⟩
    refine ⟨p, hp, ?_⟩
    have hsome := leaf_lookup_of_layerOk code_ids td maxLayer includeDup L p.1 p.2
      (layerOk_of_ok _ _ _ _ _ hall hL) (by exact hp)
    obtain ⟨b, hb⟩ := Option.isSome_iff_exists.mp hsome
    rw [hb]
    have : ancOf td p.1 L = b := by rw [ancOf, hb]; rfl
    rw [this] at hanc
    rw [hanc]
  · intro p hp
    have haS : ancOf td p.1 L ∈ layer_codeset code_ids td L := by
      rw [layer_codeset, List.mem_dedup]
      exact List.mem_map_of_mem _ hp
    exact mem_zip_range _ _ haS

/-- Claim C9 amended witness: one leaf `x` with ancestor `p`; the single-layer
dictionary is `[(p, 0)]` and satisfies the code-to-index characterization. -/
theorem id_dict_code_to_index_witness :
    setup_matrices_by_layer [(r"x", 0)] [(r"x", [r"p"])] 1 true =
      .ok ([⟨[(0, 0, 1)], (1, 1)⟩], [[(r"p", 0)]]) ∧
    ([((r"p" : Code), 0)].map Prod.snd = List.range ([((r"p" : Code), 0)].length) ∧
      ([((r"p" : Code), 0)].map Prod.fst).Nodup ∧
      (∀ q ∈ [((r"p" : Code), 0)], ∃ p ∈ [((r"x" : Code), 0)],
        ancestorAt [(r"x", [r"p"])] p.1 0 = some q.1) ∧
      (∀ p ∈ [((r"x" : Code), 0)], ∃ k,
        (ancOf [(r"x", [r"p"])] p.1 0, k) ∈ [((r"p" : Code), 0)])) :=
  ⟨by decide,
   id_dict_code_to_index [(r"x", 0)] [(r"x", [r"p"])] 1 true
     [⟨[(0, 0, 1)], (1, 1)⟩] [[(r"p", 0)]] 0 [(r"p", 0)]
     (by decide) (by decide)⟩

/-- Claim C10: with `include_duplicates = False` and every leaf carrying a
full parent chain, `setup_matrices_by_layer` raises `LookupError` exactly when
some processed layer `L` (other than the exempted `max_layer-2`) has a leaf
whose layer-`L` ancestor is not a dictionary key with a parents list longer
than `L`. -/
theorem suppression_requires_ancestor_keys (code_ids : List (Code × Nat)) (td : TransDict)
    (maxLayer : Nat)
    (hful : ∀ p ∈ code_ids, ∃ ps, alookup td p.1 = some ps ∧ maxLayer ≤ ps.length) :
    (setup_matrices_by_layer code_ids td maxLayer false = .error PyErr.lookupError ↔
      ∃ L, L < maxLayer ∧ (L : Int) ≠ (maxLayer : Int) - 2 ∧
        ∃ p ∈ code_ids, ¬ ∃ qs, alookup td (ancOf td p.1 L) = some qs ∧ L < qs.length) := by
  have hleaf : ∀ L, L < maxLayer → ∀ p ∈ code_ids, ∃ a, ancestorAt td p.1 L = some a := by
    intro L hL p hp
    rcases hful p hp with ⟨ps, hps, hlen⟩
    have : (ancestorAt td p.1 L).isSome = true :=
      (ancestorAt_isSome_iff td p.1 L).mpr ⟨ps, hps, by omega⟩
    exact Option.isSome_iff_exists.mp this
  unfold setup_matrices_by_layer
  by_cases hg : (List.range maxLayer).all (layerOk code_ids td maxLayer false) = true
  · rw [if_pos hg]
    constructor
    · intro h
      exact Except.noConfusion h
    · rintro ⟨L, hL, hL2, p, hp, hbad⟩
      exfalso
      obtain ⟨a, ha⟩ := hleaf L hL p hp
      have hsome := anc_anc_of_layerOk code_ids td maxLayer L p.1 p.2 a
        (layerOk_of_ok _ _ _ _ _ hg hL) (by exact hp) hL2 ha
      apply hbad
      have hanc : ancOf td p.1 L = a := by rw [ancOf, ha]; rfl
      rw [hanc]
      exact (ancestorAt_isSome_iff td a L).mp hsome
  · rw [if_neg hg]
    constructor
    · intro _
      simp only [List.all_eq_true, not_forall] at hg
      rcases hg with ⟨L, hLmem, hLbad⟩
      have hL : L < maxLayer := List.mem_range.mp hLmem
      have hall1 : code_ids.all (fun p => (ancestorAt td p.1 L).isSome) = true := by
        rw [List.all_eq_true]
        intro p hp
        obtain ⟨a, ha⟩ := hleaf L hL p hp
        rw [ha]
        rfl
      unfold layerOk at hLbad
      rw [hall1, Bool.true_and, Bool.false_or] at hLbad
      rw [Bool.or_eq_true, not_or] at hLbad
      obtain ⟨hdec, hall2⟩ := hLbad
      have hL2 : (L : Int) ≠ (maxLayer : Int) - 2 := by
        intro h
        exact hdec (by simp [h])
      simp only [List.all_eq_true, not_forall] at hall2
      rcases hall2 with ⟨p, hp, hbadp⟩
      refine ⟨L, hL, hL2, p, hp, ?_⟩
      obtain ⟨a, ha⟩ := hleaf L hL p hp
      rw [ha] at hbadp
      intro hex
      apply hbadp
      have hanc : ancOf td p.1 L = a := by rw [ancOf, ha]; rfl
      rw [hanc] at hex
      exact (ancestorAt_isSome_iff td a L).mpr hex
    · intro _
      rfl

/-- Claim C10 witness: one leaf `x` with a full two-layer chain `[p, q]`,
`max_layer = 2`, duplicates off: layer 1 is not the exempted layer 0 and the
ancestor `q` is not a dictionary key, so the call raises `LookupError`. -/
theorem suppression_requires_ancestor_keys_witness :
    (∀ p ∈ ([(r"x", 0)] : List (Code × Nat)), ∃ ps,
        alookup ([(r"x", [r"p", r"q"])] : TransDict) p.1 = some ps ∧ 2 ≤ ps.length) ∧
    setup_matrices_by_layer [(r"x", 0)] [(r"x", [r"p", r"q"])] 2 false =
      .error PyErr.lookupError := by
  have hful : ∀ p ∈ ([(r"x", 0)] : List (Code × Nat)), ∃ ps,
      alookup ([(r"x", [r"p", r"q"])] : TransDict) p.1 = some ps ∧ 2 ≤ ps.length := by
    intro p hp
    rcases List.mem_singleton.mp hp with rfl
    exact ⟨[r"p", r"q"], rfl, by decide⟩
  refine ⟨hful, ?_⟩
  refine (suppression_requires_ancestor_keys [(r"x", 0)] [(r"x", [r"p", r"q"])] 2 hful).mpr ?_
  refine ⟨1, by decide, by decide, (r"x", 0), by decide, ?_⟩
  rintro ⟨qs, hqs, hlen⟩
  have hnone : alookup ([(r"x", [r"p", r"q"])] : TransDict)
      (ancOf [(r"x", [r"p", r"q"])] ((r"x", 0) : Code × Nat).1 1) = none := by decide
  rw [hnone] at hqs
  exact Option.noConfusion hqs

/-! ### Claim theorems: metric reports -/

/-- Claim C2 (code bug in `report_bin`): `report_bin` binarizes its inputs but
then calls `report` with only two of its three required positional arguments
(`code_id_dict` is missing), so every call raises `TypeError`; the
binarize-then-delegate report the claim describes is never produced. -/
theorem report_bin_always_typeerror (pred gold : Mat) :
    report_bin pred gold = Except.error PyErr.typeError := rfl

/-- Claim C3 (code bug in `hierarchical_eval_setup`): on
`preds = golds = [[3,5],[7,2]]` with the single transition matrix `[[1],[1]]`
(both row sums are 1, so the claimed diagonal filter is the identity), the
code's leaf-level segment is the numpy elementwise product with the diagonal
matrix, `[[3,0],[0,2]]` — the first two columns of the returned combined
matrix — whereas the segment the claim describes (the matrix product of
`preds` with the diagonal matrix of row sums) is `[[3,5],[7,2]]`. -/
theorem hierarchical_leaf_component_divergence :
    hierarchical_eval_setup [[3,5],[7,2]] [[3,5],[7,2]] [[[1],[1]]] 1 =
      some ([[3,0,3,5],[0,2,7,2]], [[3,0,3,5],[0,2,7,2]]) ∧
    spec_leaf_component [[3,5],[7,2]] [[1],[1]] = [[3,5],[7,2]] ∧
    ([[(3:ℚ),0,3,5],[0,2,7,2]].map (List.take 2) ≠ ([[3,5],[7,2]] : Mat)) := by
  refine ⟨?_, ?_, ?_⟩
  · norm_num [hierarchical_eval_setup, low_level_diagonal, np_diag, np_sum_axis1, np_mul,
      bval, numCols, np_concatenate1, List.range_succ, List.mapM, List.mapM.loop,
      Option.bind, Option.pure_def]
  · norm_num [spec_leaf_component, matMulSpec, low_level_diagonal, np_diag, np_sum_axis1,
      numCols, List.range_succ]
  · norm_num

/-! ### Helper lemmas for the confusion-count formulas -/

theorem numCols_zipWith (f : ℚ → ℚ → ℚ) (pred gold : Mat) (n k : Nat) (hn : 0 < n)
    (hp : Rect pred n k) (hg : Rect gold n k) :
    numCols (List.zipWith (List.zipWith f) pred gold) = k := by
  cases pred with
  | nil =>
      exfalso
      have := hp.1
      simp at this
      omega
  | cons r t =>
      cases gold with
      | nil =>
          exfalso
          have := hg.1
          simp at this
          omega
      | cons s u =>
          have hr : r.length = k := hp.2 r (List.mem_cons_self r t)
          have hs : s.length = k := hg.2 s (List.mem_cons_self s u)
          simp [numCols, List.zipWith_cons_cons, List.length_zipWith, hr, hs]

theorem col_sum_zipWith (f : ℚ → ℚ → ℚ) (pred gold : Mat) (n k : Nat)
    (hp : Rect pred n k) (hg : Rect gold n k) (j : Nat) (hj : j < k) :
    (col (List.zipWith (List.zipWith f) pred gold) j).sum =
      (List.zipWith (fun r s => f (r.getD j 0) (s.getD j 0)) pred gold).sum := by
  unfold col
  rw [List.map_zipWith]
  congr 1
  apply zipWith_congr_mem
  intro r hr s hs
  have hr' : j < r.length := by rw [hp.2 r hr]; exact hj
  have hs' : j < s.length := by rw [hg.2 s hs]; exact hj
  exact getD_zipWith0 f r s j hr' hs'

theorem per_class_formula (f : ℚ → ℚ → ℚ) (pred gold : Mat) (n k : Nat) (hn : 0 < n)
    (hp : Rect pred n k) (hg : Rect gold n k) :
    np_sum_axis0 (List.zipWith (List.zipWith f) pred gold) =
      (List.range k).map
        (fun j => (List.zipWith (fun r s => f (r.getD j 0) (s.getD j 0)) pred gold).sum) := by
  unfold np_sum_axis0
  rw [numCols_zipWith f pred gold n k hn hp hg]
  apply List.map_congr_left
  intro j hj
  exact col_sum_zipWith f pred gold n k hp hg j (List.mem_range.mp hj)

theorem all_axes_formula (f : ℚ → ℚ → ℚ) (pred gold : Mat) (n k : Nat)
    (hp : Rect pred n k) (hg : Rect gold n k) :
    np_sum_all (List.zipWith (List.zipWith f) pred gold) =
      ((List.range k).map
        (fun j => (List.zipWith (fun r s => f (r.getD j 0) (s.getD j 0)) pred gold).sum)).sum := by
  have hrows : ∀ row ∈ List.zipWith (List.zipWith f) pred gold, row.length = k := by
    intro row hrow
    rcases exists_of_zipWith_mem hrow with ⟨r, hr, s, hs, hrow'⟩
    subst hrow'
    rw [List.length_zipWith, hp.2 r hr, hg.2 s hs]
    omega
  rw [np_sum_all_by_cols _ k hrows]
  congr 1
  apply List.map_congr_left
  intro j hj
  exact col_sum_zipWith f pred gold n k hp hg j (List.mem_range.mp hj)

theorem np_maximum0_np_subtract (p g : Mat) :
    np_maximum0 (np_subtract p g) =
      List.zipWith (List.zipWith (fun a b => max (a - b) 0)) p g := by
  unfold np_maximum0 np_subtract
  rw [List.map_zipWith]
  apply zipWith_congr_mem
  intro r _ s _
  rw [List.map_zipWith]

/-- Claim C4: for equal-shaped non-negative matrices and both axis
specifications the program uses (`axes=0` per class, `axes=(0,1)` overall),
`tp_matrix_mul` returns the sum of the elementwise minimum of `pred` and
`gold`, `fp_matrix_mul` the sum of `max(pred - gold, 0)`, and `fn_matrix_mul`
the sum of `max(gold - pred, 0)`. -/
theorem confusion_counts_formulas (pred gold : Mat) (n k : Nat) (hn : 0 < n)
    (hp : Rect pred n k) (hg : Rect gold n k)
    (hpn : MatNonneg pred) (hgn : MatNonneg gold) :
    tp_matrix_mul pred gold .axis0 = .vec ((List.range k).map (specTP pred gold)) ∧
    tp_matrix_mul pred gold .axes01 = .scalar (((List.range k).map (specTP pred gold)).sum) ∧
    fp_matrix_mul pred gold .axis0 = .vec ((List.range k).map (specFP pred gold)) ∧
    fp_matrix_mul pred gold .axes01 = .scalar (((List.range k).map (specFP pred gold)).sum) ∧
    fn_matrix_mul pred gold .axis0 = .vec ((List.range k).map (specFN pred gold)) ∧
    fn_matrix_mul pred gold .axes01 = .scalar (((List.range k).map (specFN pred gold)).sum) := by
  refine ⟨?_, ?_, ?_, ?_, ?_, ?_⟩
  · show NpSum.vec (np_sum_axis0 (np_minimum pred gold)) = _
    rw [show np_minimum pred gold = List.zipWith (List.zipWith min) pred gold from rfl,
      per_class_formula min pred gold n k hn hp hg]
    rfl
  · show NpSum.scalar (np_sum_all (np_minimum pred gold)) = _
    rw [show np_minimum pred gold = List.zipWith (List.zipWith min) pred gold from rfl,
      all_axes_formula min pred gold n k hp hg]
    rfl
  · show NpSum.vec (np_sum_axis0 (np_maximum0 (np_subtract pred gold))) = _
    rw [np_maximum0_np_subtract,
      per_class_formula (fun a b => max (a - b) 0) pred gold n k hn hp hg]
    rfl
  · show NpSum.scalar (np_sum_all (np_maximum0 (np_subtract pred gold))) = _
    rw [np_maximum0_np_subtract,
      all_axes_formula (fun a b => max (a - b) 0) pred gold n k hp hg]
    rfl
  · show NpSum.vec (np_sum_axis0 (np_maximum0 (np_subtract gold pred))) = _
    rw [np_maximum0_np_subtract,
      per_class_formula (fun a b => max (a - b) 0) gold pred n k hn hg hp]
    refine congrArg NpSum.vec (List.map_congr_left ?_)
    intro j _
    rw [List.zipWith_comm]
    rfl
  · show NpSum.scalar (np_sum_all (np_maximum0 (np_subtract gold pred))) = _
    rw [np_maximum0_np_subtract,
      all_axes_formula (fun a b => max (a - b) 0) gold pred n k hg hp]
    refine congrArg NpSum.scalar (congrArg List.sum (List.map_congr_left ?_))
    intro j _
    rw [List.zipWith_comm]
    rfl

/-- Claim C4 witness: concrete 2x2 count matrices. -/
theorem confusion_counts_formulas_witness :
    MatNonneg ([[2, 0], [1, 3]] : Mat) ∧
    (tp_matrix_mul [[2, 0], [1, 3]] [[1, 1], [0, 3]] .axis0 =
        .vec ((List.range 2).map (specTP [[2, 0], [1, 3]] [[1, 1], [0, 3]])) ∧
      tp_matrix_mul [[2, 0], [1, 3]] [[1, 1], [0, 3]] .axes01 =
        .scalar (((List.range 2).map (specTP [[2, 0], [1, 3]] [[1, 1], [0, 3]])).sum) ∧
      fp_matrix_mul [[2, 0], [1, 3]] [[1, 1], [0, 3]] .axis0 =
        .vec ((List.range 2).map (specFP [[2, 0], [1, 3]] [[1, 1], [0, 3]])) ∧
      fp_matrix_mul [[2, 0], [1, 3]] [[1, 1], [0, 3]] .axes01 =
        .scalar (((List.range 2).map (specFP [[2, 0], [1, 3]] [[1, 1], [0, 3]])).sum) ∧
      fn_matrix_mul [[2, 0], [1, 3]] [[1, 1], [0, 3]] .axis0 =
        .vec ((List.range 2).map (specFN [[2, 0], [1, 3]] [[1, 1], [0, 3]])) ∧
      fn_matrix_mul [[2, 0], [1, 3]] [[1, 1], [0, 3]] .axes01 =
        .scalar (((List.range 2).map (specFN [[2, 0], [1, 3]] [[1, 1], [0, 3]])).sum)) :=
  ⟨by decide,
   confusion_counts_formulas [[2, 0], [1, 3]] [[1, 1], [0, 3]] 2 2
     (by decide) (by decide) (by decide) (by decide) (by decide)⟩

/-! ### Helper lemmas for the metric reports -/

theorem matNonneg_np_minimum (p g : Mat) (hp : MatNonneg p) (hg : MatNonneg g) :
    MatNonneg (np_minimum p g) := by
  intro row hrow x hx
  rcases exists_of_zipWith_mem hrow with ⟨r, hr, s, hs, hrow'⟩
  subst hrow'
  rcases exists_of_zipWith_mem hx with ⟨a, ha, b, hb, hx'⟩
  subst hx'
  exact le_min (hp r hr a ha) (hg s hs b hb)

theorem matNonneg_np_maximum0 (m : Mat) : MatNonneg (np_maximum0 m) := by
  intro row hrow x hx
  rcases List.mem_map.mp hrow with ⟨r, _, hrow'⟩
  subst hrow'
  rcases List.mem_map.mp hx with ⟨a, _, hx'⟩
  subst hx'
  exact le_max_right a 0

theorem col_all_nonneg (m : Mat) (h : MatNonneg m) (j : Nat) : ∀ x ∈ col m j, 0 ≤ x := by
  intro x hx
  rcases List.mem_map.mp hx with ⟨row, hrow, hx'⟩
  subst hx'
  rcases getD_mem_or_zero row j with hm | hz
  · exact h row hrow _ hm
  · rw [hz]

theorem np_sum_axis0_nonneg (m : Mat) (h : MatNonneg m) : ∀ x ∈ np_sum_axis0 m, 0 ≤ x := by
  intro x hx
  rcases List.mem_map.mp hx with ⟨j, _, hx'⟩
  subst hx'
  exact List.sum_nonneg (col_all_nonneg m h j)

theorem np_sum_all_nonneg (m : Mat) (h : MatNonneg m) : 0 ≤ np_sum_all m := by
  apply List.sum_nonneg
  intro x hx
  rcases List.mem_map.mp hx with ⟨row, hrow, hx'⟩
  subst hx'
  exact List.sum_nonneg (fun y hy => h row hrow y hy)

theorem matZero_np_minimum (p g : Mat) (hp : MatZero p) (hg : MatZero g) :
    MatZero (np_minimum p g) := by
  intro row hrow x hx
  rcases exists_of_zipWith_mem hrow with ⟨r, hr, s, hs, hrow'⟩
  subst hrow'
  rcases exists_of_zipWith_mem hx with ⟨a, ha, b, hb, hx'⟩
  subst hx'
  rw [hp r hr a ha, hg s hs b hb]
  simp

theorem matZero_np_maximum0_sub (p g : Mat) (hp : MatZero p) (hg : MatZero g) :
    MatZero (np_maximum0 (np_subtract p g)) := by
  rw [np_maximum0_np_subtract]
  intro row hrow x hx
  rcases exists_of_zipWith_mem hrow with ⟨r, hr, s, hs, hrow'⟩
  subst hrow'
  rcases exists_of_zipWith_mem hx with ⟨a, ha, b, hb, hx'⟩
  subst hx'
  rw [hp r hr a ha, hg s hs b hb]
  simp

theorem matZero_sum_axis0 (m : Mat) (h : MatZero m) : ∀ x ∈ np_sum_axis0 m, x = 0 := by
  intro x hx
  rcases List.mem_map.mp hx with ⟨j, _, hx'⟩
  subst hx'
  apply List.sum_eq_zero
  intro y hy
  rcases List.mem_map.mp hy with ⟨row, hrow, hy'⟩
  subst hy'
  rcases getD_mem_or_zero row j with hm | hz
  · exact h row hrow _ hm
  · exact hz

theorem matZero_sum_all (m : Mat) (h : MatZero m) : np_sum_all m = 0 := by
  apply List.sum_eq_zero
  intro x hx
  rcases List.mem_map.mp hx with ⟨row, hrow, hx'⟩
  subst hx'
  exact List.sum_eq_zero (fun y hy => h row hrow y hy)

theorem guarded_ratio_bounds (t f : ℚ) (ht : 0 ≤ t) (hf : 0 ≤ f) :
    0 ≤ guarded_ratio t (t + f) ∧ guarded_ratio t (t + f) ≤ 1 := by
  unfold guarded_ratio correct_denom
  by_cases hd : t + f = 0
  · have ht0 : t = 0 := by linarith
    rw [if_pos hd, hd, ht0]
    norm_num
  · rw [if_neg hd, add_zero]
    have hdpos : 0 < t + f := lt_of_le_of_ne (by linarith) (Ne.symm hd)
    constructor
    · positivity
    · rw [div_le_one hdpos]
      linarith

theorem guarded_f1_bounds (p r : ℚ) (hp0 : 0 ≤ p) (hp1 : p ≤ 1) (hr0 : 0 ≤ r) (hr1 : r ≤ 1) :
    0 ≤ guarded_ratio (2 * (p * r)) (p + r) ∧ guarded_ratio (2 * (p * r)) (p + r) ≤ 1 := by
  unfold guarded_ratio correct_denom
  by_cases hd : p + r = 0
  · have hp' : p = 0 := by linarith
    rw [if_pos hd, hd, hp']
    norm_num
  · rw [if_neg hd, add_zero]
    have hdpos : 0 < p + r := lt_of_le_of_ne (by linarith) (Ne.symm hd)
    constructor
    · positivity
    · rw [div_le_one hdpos]
      nlinarith [mul_nonneg hp0 (sub_nonneg.mpr hr1), mul_nonneg hr0 (sub_nonneg.mpr hp1)]

theorem guarded_ratio_zero (t f : ℚ) (ht : t = 0) (hf : f = 0) :
    guarded_ratio t (t + f) = 0 := by
  rw [ht, hf]
  norm_num [guarded_ratio, correct_denom]

theorem guarded_f1_zero (p r : ℚ) (hp : p = 0) (hr : r = 0) :
    guarded_ratio (2 * (p * r)) (p + r) = 0 := by
  rw [hp, hr]
  norm_num [guarded_ratio, correct_denom]

theorem prec_vec_bounds (tpv fv : List ℚ) (ht : ∀ x ∈ tpv, 0 ≤ x) (hf : ∀ x ∈ fv, 0 ≤ x) :
    ∀ x ∈ List.zipWith (fun t f => guarded_ratio t (t + f)) tpv fv, 0 ≤ x ∧ x ≤ 1 := by
  intro x hx
  rcases exists_of_zipWith_mem hx with ⟨t, htm, f, hfm, hx'⟩
  subst hx'
  exact guarded_ratio_bounds t f (ht t htm) (hf f hfm)

theorem f1_vec_bounds (pv rv : List ℚ) (hp : ∀ x ∈ pv, 0 ≤ x ∧ x ≤ 1)
    (hr : ∀ x ∈ rv, 0 ≤ x ∧ x ≤ 1) :
    ∀ x ∈ List.zipWith (fun p r => guarded_ratio (2 * (p * r)) (p + r)) pv rv,
      0 ≤ x ∧ x ≤ 1 := by
  intro x hx
  rcases exists_of_zipWith_mem hx with ⟨p, hpm, r, hrm, hx'⟩
  subst hx'
  exact guarded_f1_bounds p r (hp p hpm).1 (hp p hpm).2 (hr r hrm).1 (hr r hrm).2

theorem prec_vec_zero (tpv fv : List ℚ) (ht : ∀ x ∈ tpv, x = 0) (hf : ∀ x ∈ fv, x = 0) :
    ∀ x ∈ List.zipWith (fun t f => guarded_ratio t (t + f)) tpv fv, x = 0 := by
  intro x hx
  rcases exists_of_zipWith_mem hx with ⟨t, htm, f, hfm, hx'⟩
  subst hx'
  exact guarded_ratio_zero t f (ht t htm) (hf f hfm)

theorem f1_vec_zero (pv rv : List ℚ) (hp : ∀ x ∈ pv, x = 0) (hr : ∀ x ∈ rv, x = 0) :
    ∀ x ∈ List.zipWith (fun p r => guarded_ratio (2 * (p * r)) (p + r)) pv rv, x = 0 := by
  intro x hx
  rcases exists_of_zipWith_mem hx with ⟨p, hpm, r, hrm, hx'⟩
  subst hx'
  exact guarded_f1_zero p r (hp p hpm) (hr r hrm)

theorem buildRows_mem :
    ∀ (ps rs fs ss : List ℚ) (cs : List Code) (row : ReportRow),
      row ∈ buildRows ps rs fs ss cs →
      row.precision ∈ ps ∧ row.recl ∈ rs ∧ row.f1 ∈ fs := by
  intro ps
  induction ps with
  | nil =>
      intro rs fs ss cs row h
      exact absurd h (List.not_mem_nil row)
  | cons p pt ih =>
      intro rs fs ss cs row h
      cases rs with
      | nil => exact absurd h (List.not_mem_nil row)
      | cons r rt =>
          cases fs with
          | nil => exact absurd h (List.not_mem_nil row)
          | cons f ft =>
              cases ss with
              | nil => exact absurd h (List.not_mem_nil row)
              | cons s st =>
                  cases cs with
                  | nil => exact absurd h (List.not_mem_nil row)
                  | cons c ct =>
                      rcases List.mem_cons.mp h with h | h
                      · subst h
                        exact ⟨List.mem_cons_self _ _, List.mem_cons_self _ _,
                          List.mem_cons_self _ _⟩
                      · rcases ih rt ft st ct row h with ⟨h1, h2, h3⟩
                        exact ⟨List.mem_cons_of_mem p h1, List.mem_cons_of_mem r h2,
                          List.mem_cons_of_mem f h3⟩

theorem report_eq (pred gold : Mat) (d : List (Nat × Code)) :
    report pred gold d = buildRows
      (List.zipWith (fun t f => guarded_ratio t (t + f))
        (tp_matrix_mul_per_class pred gold).vecD (fp_matrix_mul_per_class pred gold).vecD)
      (List.zipWith (fun t f => guarded_ratio t (t + f))
        (tp_matrix_mul_per_class pred gold).vecD (fn_matrix_mul_per_class pred gold).vecD)
      (List.zipWith (fun p r => guarded_ratio (2 * (p * r)) (p + r))
        (List.zipWith (fun t f => guarded_ratio t (t + f))
          (tp_matrix_mul_per_class pred gold).vecD (fp_matrix_mul_per_class pred gold).vecD)
        (List.zipWith (fun t f => guarded_ratio t (t + f))
          (tp_matrix_mul_per_class pred gold).vecD (fn_matrix_mul_per_class pred gold).vecD))
      (np_sum_axis0 gold)
      ((sortKeys (d.map Prod.fst)).map (fun k => (alookup d k).getD default)) := rfl

/-- Claim C5: whenever a precision, recall or F1 denominator is exactly 0 the
reporting functions substitute 1 (so the ratio is 0); every per-class and
micro Precision/Recall/F1 is a well-defined rational in [0,1]; and on all-zero
`pred` and `gold` every such value equals 0. -/
theorem zero_denominator_guard (pred gold : Mat) (d : List (Nat × Code))
    (hpn : MatNonneg pred) (hgn : MatNonneg gold) :
    (∀ t f : ℚ, 0 ≤ t → 0 ≤ f → t + f = 0 →
      correct_denom (t + f) = 1 ∧ guarded_ratio t (t + f) = 0) ∧
    (∀ row ∈ report pred gold d,
      (0 ≤ row.precision ∧ row.precision ≤ 1) ∧
      (0 ≤ row.recl ∧ row.recl ≤ 1) ∧
      (0 ≤ row.f1 ∧ row.f1 ≤ 1)) ∧
    (MatZero pred → MatZero gold →
      ∀ row ∈ report pred gold d, row.precision = 0 ∧ row.recl = 0 ∧ row.f1 = 0) ∧
    ((0 ≤ (report_micro pred gold).precision ∧ (report_micro pred gold).precision ≤ 1) ∧
      (0 ≤ (report_micro pred gold).recl ∧ (report_micro pred gold).recl ≤ 1) ∧
      (0 ≤ (report_micro pred gold).f1 ∧ (report_micro pred gold).f1 ≤ 1)) ∧
    (MatZero pred → MatZero gold →
      (report_micro pred gold).precision = 0 ∧ (report_micro pred gold).recl = 0 ∧
        (report_micro pred gold).f1 = 0) := by
  have htpv : ∀ x ∈ (tp_matrix_mul_per_class pred gold).vecD, 0 ≤ x :=
    np_sum_axis0_nonneg _ (matNonneg_np_minimum pred gold hpn hgn)
  have hfpv : ∀ x ∈ (fp_matrix_mul_per_class pred gold).vecD, 0 ≤ x :=
    np_sum_axis0_nonneg _ (matNonneg_np_maximum0 _)
  have hfnv : ∀ x ∈ (fn_matrix_mul_per_class pred gold).vecD, 0 ≤ x :=
    np_sum_axis0_nonneg _ (matNonneg_np_maximum0 _)
  refine ⟨?_, ?_, ?_, ?_, ?_⟩
  · intro t f ht hf hd
    constructor
    · rw [correct_denom, if_pos hd, hd]
      norm_num
    · have ht0 : t = 0 := by linarith
      have hf0 : f = 0 := by linarith
      exact guarded_ratio_zero t f ht0 hf0
  · intro row hrow
    rw [report_eq] at hrow
    rcases buildRows_mem _ _ _ _ _ row hrow with ⟨h1, h2, h3⟩
    exact ⟨prec_vec_bounds _ _ htpv hfpv _ h1, prec_vec_bounds _ _ htpv hfnv _ h2,
      f1_vec_bounds _ _ (prec_vec_bounds _ _ htpv hfpv) (prec_vec_bounds _ _ htpv hfnv) _ h3⟩
  · intro hz1 hz2
    have htz : ∀ x ∈ (tp_matrix_mul_per_class pred gold).vecD, x = 0 :=
      matZero_sum_axis0 _ (matZero_np_minimum pred gold hz1 hz2)
    have hfz : ∀ x ∈ (fp_matrix_mul_per_class pred gold).vecD, x = 0 :=
      matZero_sum_axis0 _ (matZero_np_maximum0_sub pred gold hz1 hz2)
    have hnz : ∀ x ∈ (fn_matrix_mul_per_class pred gold).vecD, x = 0 :=
      matZero_sum_axis0 _ (matZero_np_maximum0_sub gold pred hz2 hz1)
    intro row hrow
    rw [report_eq] at hrow
    rcases buildRows_mem _ _ _ _ _ row hrow with ⟨h1, h2, h3⟩
    exact ⟨prec_vec_zero _ _ htz hfz _ h1, prec_vec_zero _ _ htz hnz _ h2,
      f1_vec_zero _ _ (prec_vec_zero _ _ htz hfz) (prec_vec_zero _ _ htz hnz) _ h3⟩
  · have ht0 : 0 ≤ (tp_matrix_mul_full pred gold).scalarD :=
      np_sum_all_nonneg _ (matNonneg_np_minimum pred gold hpn hgn)
    have hf0 : 0 ≤ (fp_matrix_mul_full pred gold).scalarD :=
      np_sum_all_nonneg _ (matNonneg_np_maximum0 _)
    have hn0 : 0 ≤ (fn_matrix_mul_full pred gold).scalarD :=
      np_sum_all_nonneg _ (matNonneg_np_maximum0 _)
    have hprec := guarded_ratio_bounds _ _ ht0 hf0
    have hrec := guarded_ratio_bounds _ _ ht0 hn0
    have hf1 := guarded_f1_bounds _ _ hprec.1 hprec.2 hrec.1 hrec.2
    exact ⟨hprec, hrec, hf1⟩
  · intro hz1 hz2
    have htz : (tp_matrix_mul_full pred gold).scalarD = 0 :=
      matZero_sum_all _ (matZero_np_minimum pred gold hz1 hz2)
    have hfz : (fp_matrix_mul_full pred gold).scalarD = 0 :=
      matZero_sum_all _ (matZero_np_maximum0_sub pred gold hz1 hz2)
    have hnz : (fn_matrix_mul_full pred gold).scalarD = 0 :=
      matZero_sum_all _ (matZero_np_maximum0_sub gold pred hz2 hz1)
    exact ⟨guarded_ratio_zero _ _ htz hfz, guarded_ratio_zero _ _ htz hnz,
      guarded_f1_zero _ _ (guarded_ratio_zero _ _ htz hfz) (guarded_ratio_zero _ _ htz hnz)⟩

/-- Claim C5 witness: on the all-zero 1x1 matrices, the per-class report row
has Precision = Recall = F1 = 0. -/
theorem zero_denominator_guard_witness :
    MatNonneg ([[0]] : Mat) ∧
    (∀ row ∈ report [[0]] [[0]] [(0, r"A")],
      row.precision = 0 ∧ row.recl = 0 ∧ row.f1 = 0) :=
  ⟨by decide,
   (zero_denominator_guard [[0]] [[0]] [(0, r"A")] (by decide) (by decide)).2.2.1
     (by decide) (by decide)⟩

/-! ### Helper lemmas for the macro report -/

theorem correct_denom_eq_specGuard (d : ℚ) : correct_denom d = specGuard d := by
  unfold correct_denom specGuard
  by_cases h : d = 0 <;> simp [h]

theorem zipWith_map_range (f : ℚ → ℚ → ℚ) (g h : Nat → ℚ) (l : List Nat) :
    List.zipWith f (l.map g) (l.map h) = l.map (fun j => f (g j) (h j)) := by
  induction l with
  | nil => rfl
  | cons a t ih => simp [ih]

/-- Claim C6: `report_macro`'s Precision and Recall are the unweighted means of
the zero-guarded per-class precisions and recalls, its F1 is
`2*macro_P*macro_R / (macro_P + macro_R)` with the zero-denominator guard —
derived from the two means, not averaged per class — and on the concrete input
`pred = [[1,1],[0,1],[0,0]]`, `gold = [[1,1],[0,0],[0,3]]` the macro F1
(15/22) differs from the mean of the per-class F1 scores (2/3). -/
theorem macro_from_means_not_mean_f1 (pred gold : Mat) (n k : Nat) (hn : 0 < n) (hk : 0 < k)
    (hp : Rect pred n k) (hg : Rect gold n k) :
    ( report_macro pred gold).precision =
      ((List.range k).map (fun j =>
        specTP pred gold j / specGuard (specTP pred gold j + specFP pred gold j))).sum / (k : ℚ) ∧
    ( report_macro pred gold).recl =
      ((List.range k).map (fun j =>
        specTP pred gold j / specGuard (specTP pred gold j + specFN pred gold j))).sum / (k : ℚ) ∧
    ( report_macro pred gold).f1 =
      2 * (( report_macro pred gold).precision * ( report_macro pred gold).recl) /
        specGuard (( report_macro pred gold).precision + ( report_macro pred gold).recl) ∧
    ( report_macro [[1, 1], [0, 1], [0, 0]] [[1, 1], [0, 0], [0, 3]]).f1 ≠
      npAverage ((report [[1, 1], [0, 1], [0, 0]] [[1, 1], [0, 0], [0, 3]]
        [(0, r"A"), (1, r"B")]).map (fun row => row.f1)) := by
  have htpv : (tp_matrix_mul_per_class pred gold).vecD =
      (List.range k).map (fun j => specTP pred gold j) := by
    show np_sum_axis0 (List.zipWith (List.zipWith min) pred gold) = _
    exact per_class_formula min pred gold n k hn hp hg
  have hfpv : (fp_matrix_mul_per_class pred gold).vecD =
      (List.range k).map (fun j => specFP pred gold j) := by
    show np_sum_axis0 (np_maximum0 (np_subtract pred gold)) = _
    rw [np_maximum0_np_subtract]
    exact per_class_formula (fun a b => max (a - b) 0) pred gold n k hn hp hg
  have hfnv : (fn_matrix_mul_per_class pred gold).vecD =
      (List.range k).map (fun j => specFN pred gold j) := by
    show np_sum_axis0 (np_maximum0 (np_subtract gold pred)) = _
    rw [np_maximum0_np_subtract,
      per_class_formula (fun a b => max (a - b) 0) gold pred n k hn hg hp]
    apply List.map_congr_left
    intro j _
    rw [List.zipWith_comm]
    rfl
  refine ⟨?_, ?_, ?_, ?_⟩
  · show npAverage (List.zipWith (fun t f => guarded_ratio t (t + f))
      (tp_matrix_mul_per_class pred gold).vecD (fp_matrix_mul_per_class pred gold).vecD) = _
    rw [htpv, hfpv, zipWith_map_range]
    unfold npAverage
    rw [List.length_map, List.length_range]
    congr 1
    refine congrArg List.sum (List.map_congr_left ?_)
    intro j _
    simp only [guarded_ratio, correct_denom_eq_specGuard]
  · show npAverage (List.zipWith (fun t f => guarded_ratio t (t + f))
      (tp_matrix_mul_per_class pred gold).vecD (fn_matrix_mul_per_class pred gold).vecD) = _
    rw [htpv, hfnv, zipWith_map_range]
    unfold npAverage
    rw [List.length_map, List.length_range]
    congr 1
    refine congrArg List.sum (List.map_congr_left ?_)
    intro j _
    simp only [guarded_ratio, correct_denom_eq_specGuard]
  · show guarded_ratio
      (2 * (( report_macro pred gold).precision * ( report_macro pred gold).recl))
      (( report_macro pred gold).precision + ( report_macro pred gold).recl) = _
    simp only [guarded_ratio, correct_denom_eq_specGuard]
  · norm_num [ report_macro, report_eq, buildRows, tp_matrix_mul_per_class,
      fp_matrix_mul_per_class, fn_matrix_mul_per_class, tp_matrix_mul, fp_matrix_mul,
      fn_matrix_mul, np_sum, NpSum.vecD, np_sum_axis0, np_minimum, np_maximum0, np_subtract,
      numCols, col, guarded_ratio, correct_denom, npAverage, sortKeys, insertSorted, alookup,
      List.range_succ, min_def, max_def]

/-- Claim C6 witness: the identity 1x1 input instantiates the macro-precision
characterization. -/
theorem macro_from_means_not_mean_f1_witness :
    Rect ([[1]] : Mat) 1 1 ∧
    ( report_macro [[1]] [[1]]).precision =
      ((List.range 1).map (fun j =>
        specTP [[1]] [[1]] j / specGuard (specTP [[1]] [[1]] j + specFP [[1]] [[1]] j))).sum /
        ((1 : Nat) : ℚ) :=
  ⟨by decide,
   (macro_from_means_not_mean_f1 [[1]] [[1]] 1 1 (by decide) (by decide)
     (by decide) (by decide)).1⟩

end CoPHE
